import Mathlib

/-!
Shallow embedding of the DTCS coordinator service (services/coordinator/app.py
and services/coordinator/models.py) and verification of its specification
claims.  Timestamps are modelled as integers (seconds), confidences as
rationals, and the SQL store as in-memory lists of rows.  Python truthiness on
optional strings (`if t.final_label`, `x or default`) is modelled explicitly,
since the source relies on it.
-/

namespace DTCS

/-- Python truthiness of an `Optional[str]`: `None` and `""` are falsy. -/
def optStrTruthy : Option String → Bool
  | none => false
  | some s => s != ""

/-- Python `n or d` on a non-optional int field (0 is falsy). -/
def pyOrNat (n d : Nat) : Nat := if n = 0 then d else n

/-- Python `x or d` on an `Optional[int]` (None and 0 are falsy). -/
def pyOrOptNat (o : Option Nat) (d : Nat) : Nat :=
  match o with
  | some n => pyOrNat n d
  | none => d

/-- Python `e or d` on an `Optional[str]` (None and "" are falsy). -/
def pyOrStr (e : Option String) (d : String) : String :=
  match e with
  | some s => if s = "" then d else s
  | none => d

-- Tunables from services/coordinator/app.py.
def HEARTBEAT_TTL_SECONDS : Int := 75
def LEASE_SECONDS : Int := 50
def MAX_ATTEMPTS_DEFAULT : Nat := 5

/-- Row of the `task` table (models.py `Task`). -/
structure Task where
  id : String
  text : String
  type : Option String
  status : String
  finalLabel : Option String
  requiredSubmissions : Nat
  createdAt : Int
  reservedBy : Option String
  leaseExpiresAt : Option Int
  attempts : Nat
  maxAttempts : Nat
  errorMessage : Option String
deriving DecidableEq

/-- Row of the `submission` table (models.py `Submission`); the surrogate
integer key is irrelevant to the claims and omitted. -/
structure Submission where
  taskId : String
  workerId : String
  label : String
  confidence : ℚ
  createdAt : Int
deriving DecidableEq

/-- Row of the `workerscore` table (models.py `WorkerScore`). -/
structure WorkerScore where
  workerId : String
  points : Nat
deriving DecidableEq

/-- Row of the `worker` table (models.py `Worker`).  `capabilities` models the
parsed value of `capabilities_json`: `none` when the column is NULL, empty, or
unparsable (all cases where `next_task` falls back to `worker_caps = None`). -/
structure Worker where
  workerId : String
  status : String
  lastSeen : Option Int
  createdAt : Int
  capabilities : Option (List String)
deriving DecidableEq

/-- The whole relational store. -/
structure State where
  tasks : List Task
  submissions : List Submission
  workers : List Worker
  scores : List WorkerScore
deriving DecidableEq

def emptyState : State := ⟨[], [], [], []⟩

/-- `POST /tasks` (app.py `create_task`); the caller passes the fresh id that
`uuid4()` produces. -/
def createTask (s : State) (id text : String) (ty : Option String)
    (req maxAtt : Option Nat) (now : Int) : State :=
  { s with tasks := s.tasks ++ [{
      id := id, text := text, type := ty, status := "queued", finalLabel := none,
      requiredSubmissions := pyOrOptNat req 3, createdAt := now,
      reservedBy := none, leaseExpiresAt := none, attempts := 0,
      maxAttempts := pyOrOptNat maxAtt MAX_ATTEMPTS_DEFAULT, errorMessage := none }] }

/-- `POST /workers/heartbeat` (app.py `heartbeat`): upsert the worker as
active with `last_seen = now`, then extend the lease of every task
`status = "assigned" ∧ reserved_by = worker_id` to `now + LEASE_SECONDS`. -/
def heartbeat (s : State) (wid : String) (now : Int) : State :=
  let workers' :=
    if s.workers.any (fun w => w.workerId == wid) then
      s.workers.map fun w =>
        if w.workerId == wid then { w with status := "active", lastSeen := some now } else w
    else
      s.workers ++ [{ workerId := wid, status := "active", lastSeen := some now,
                      createdAt := now, capabilities := none }]
  let tasks' := s.tasks.map fun t =>
    if t.status == "assigned" && t.reservedBy == some wid then
      { t with leaseExpiresAt := some (now + LEASE_SECONDS) }
    else t
  { s with workers := workers', tasks := tasks' }

/-- One worker under `_mark_stale_workers`: mark stale when `last_seen` is set,
older than the TTL cutoff, and the status is not already "stale". -/
def staleWorker (now : Int) (w : Worker) : Worker :=
  if (match w.lastSeen with
      | some ls => decide (ls < now - HEARTBEAT_TTL_SECONDS)
      | none => false) && w.status != "stale" then
    { w with status := "stale" }
  else w

/-- Reaper phase A (app.py `_mark_stale_workers`). -/
def markStaleWorkers (now : Int) (s : State) : State :=
  { s with workers := s.workers.map (staleWorker now) }

/-- `t.lease_expires_at and t.lease_expires_at <= now` in `_requeue_expired`. -/
def leaseExpired (now : Int) (t : Task) : Bool :=
  match t.leaseExpiresAt with
  | some e => decide (e ≤ now)
  | none => false

/-- The `worker_stale` computation of `_requeue_expired`: only a worker that
EXISTS in the worker table can make the task abandoned. -/
def workerStale (workers : List Worker) (now : Int) (t : Task) : Bool :=
  match t.reservedBy with
  | some rid =>
    if rid != "" then
      match workers.find? (fun w => w.workerId == rid) with
      | some w =>
        (match w.lastSeen with
         | none => true
         | some ls => decide (ls < now - HEARTBEAT_TTL_SECONDS))
        || w.status == "stale"
      | none => false
    else false
  | none => false

/-- One task under reaper phase B (app.py `_requeue_expired` loop body). -/
def requeueTask (workers : List Worker) (now : Int) (t : Task) : Task :=
  if t.status == "assigned" then
    if leaseExpired now t || workerStale workers now t then
      if pyOrNat t.maxAttempts MAX_ATTEMPTS_DEFAULT ≤ t.attempts then
        { t with status := "failed",
                 errorMessage := some (pyOrStr t.errorMessage "max attempts reached"),
                 reservedBy := none, leaseExpiresAt := none }
      else
        { t with status := "queued", reservedBy := none, leaseExpiresAt := none }
    else t
  else t

/-- Reaper phase B (app.py `_requeue_expired`). -/
def requeueExpired (now : Int) (s : State) : State :=
  { s with tasks := s.tasks.map (requeueTask s.workers now) }

/-- One reaper sweep: phase A then phase B (app.py `sweeper` body). -/
def reaperSweep (now : Int) (s : State) : State :=
  requeueExpired now (markStaleWorkers now s)

-- ---------- Dispatcher (`POST /tasks/next`, app.py `next_task`) ----------

/-- Byte-wise lexicographic order on strings, structural so that it computes
in the kernel; this is how SQLite orders a TEXT primary key. -/
def charListLe : List Char → List Char → Bool
  | [], _ => true
  | _ :: _, [] => false
  | a :: as, b :: bs =>
    if a.toNat < b.toNat then true
    else if b.toNat < a.toNat then false
    else charListLe as bs

def strLe (a b : String) : Bool := charListLe a.data b.data

/-- `ORDER BY created_at ASC, id ASC`. -/
def taskLe (t u : Task) : Bool :=
  decide (t.createdAt < u.createdAt) ||
    (t.createdAt == u.createdAt && strLe t.id u.id)

def insertSorted (le : Task → Task → Bool) (t : Task) : List Task → List Task
  | [] => [t]
  | u :: us => if le t u then t :: u :: us else u :: insertSorted le t us

def sortTasks (le : Task → Task → Bool) : List Task → List Task
  | [] => []
  | t :: ts => insertSorted le t (sortTasks le ts)

/-- The dispatcher's candidate query: `status IN ("queued","assigned")`
ordered by `(created_at ASC, id ASC)`. -/
def candidates (tasks : List Task) : List Task :=
  sortTasks taskLe (tasks.filter fun t => t.status == "queued" || t.status == "assigned")

/-- `worker_caps` in `next_task`: the requesting worker's parsed capability
set, `none` when the worker is unknown or has no parsable capabilities. -/
def workerCaps (s : State) (wid : String) : Option (List String) :=
  match s.workers.find? (fun w => w.workerId == wid) with
  | some w => w.capabilities
  | none => none

/-- Whether a submission for `(tid, wid)` exists. -/
def hasSubmission (subs : List Submission) (tid wid : String) : Bool :=
  subs.any fun sub => sub.taskId == tid && sub.workerId == wid

/-- The four `continue` conditions of the `next_task` loop body, in source
order (the first is dead code given the candidate filter). -/
def codeSkip (s : State) (wid : String) (now : Int) (caps : Option (List String))
    (t : Task) : Bool :=
  (t.status == "finalized" || t.status == "failed")
  || (match t.type, caps with
      | some ty, some cs => ty != "" && !(cs.contains ty)
      | _, _ => false)
  || (t.status == "assigned" && (match t.leaseExpiresAt with
      | some e => decide (now < e)
      | none => false))
  || hasSubmission s.submissions t.id wid

/-- The claim update applied to the first eligible candidate. -/
def claimUpdate (wid : String) (now : Int) (t : Task) : Task :=
  { t with status := "assigned", reservedBy := some wid,
           leaseExpiresAt := some (now + LEASE_SECONDS), attempts := t.attempts + 1 }

/-- The `for t in tasks: ... continue ... return` loop shape. -/
def findClaim (skip : Task → Bool) : List Task → Option Task
  | [] => none
  | t :: ts => if skip t then findClaim skip ts else some t

/-- `POST /tasks/next` (app.py `next_task`). -/
def nextTask (s : State) (wid : String) (now : Int) :
    State × Option (String × String) :=
  match findClaim (codeSkip s wid now (workerCaps s wid)) (candidates s.tasks) with
  | some t =>
    ({ s with tasks := s.tasks.map fun u =>
        if u.id == t.id then claimUpdate wid now u else u },
     some (t.id, t.text))
  | none => (s, none)

-- ---------- Aggregator (`POST /workers/submit`, app.py `submit_result`) ----------

inductive SubmitResp where
  | notFound
  | ok (dup : Bool)
deriving DecidableEq

/-- All submissions of one task. -/
def subsFor (subs : List Submission) (tid : String) : List Submission :=
  subs.filter fun sub => sub.taskId == tid

/-- `avg` in `submit_result`: mean confidence of a bucket. -/
def avgConf (arr : List Submission) : ℚ :=
  (arr.map Submission.confidence).sum / (arr.length : ℚ)

/-- `by_label.setdefault(sub.label, []).append(sub)` on an insertion-ordered
association list (Python dict preserves insertion order). -/
def addToBuckets : List (String × List Submission) → Submission →
    List (String × List Submission)
  | [], sub => [(sub.label, [sub])]
  | (l, arr) :: rest, sub =>
    if l == sub.label then (l, arr ++ [sub]) :: rest
    else (l, arr) :: addToBuckets rest sub

def buckets (subs : List Submission) : List (String × List Submission) :=
  subs.foldl addToBuckets []

/-- One step of the `best_label` loop: strictly larger bucket wins; an equal
bucket wins only with strictly larger mean confidence. -/
def pickStep (best : Option (String × List Submission))
    (b : String × List Submission) : Option (String × List Submission) :=
  match best with
  | none => some b
  | some (bl, barr) =>
    if barr.length < b.2.length then some b
    else if b.2.length == barr.length && decide (avgConf barr < avgConf b.2) then
      some (b.1, b.2)
    else some (bl, barr)

/-- The `best_label`/`best_count` fold of `submit_result` (initial
`best_label = None`, `best_count = -1`). -/
def bestLabel (subs : List Submission) : Option (String × List Submission) :=
  (buckets subs).foldl pickStep none

/-- Upsert one point for one worker (the `WorkerScore` branch). -/
def awardPoint (scores : List WorkerScore) (wid : String) : List WorkerScore :=
  if scores.any (fun ws => ws.workerId == wid) then
    scores.map fun ws =>
      if ws.workerId == wid then { ws with points := ws.points + 1 } else ws
  else scores ++ [{ workerId := wid, points := 1 }]

/-- `set(winners)` for the winning label, first-occurrence order. -/
def distinctWinners (subs : List Submission) (l : String) : List String :=
  ((subs.filter fun sub => sub.label == l).map Submission.workerId).eraseDups

/-- The finalization block of `submit_result`: vote, set the final label,
clear the lease, award one point per distinct winning worker. -/
def finalizeUpdate (t : Task) (subs : List Submission)
    (scores : List WorkerScore) : Task × List WorkerScore :=
  match bestLabel subs with
  | some (l, _) =>
    ({ t with finalLabel := some l, status := "finalized",
              reservedBy := none, leaseExpiresAt := none },
     (distinctWinners subs l).foldl awardPoint scores)
  | none =>
    ({ t with finalLabel := none, status := "finalized",
              reservedBy := none, leaseExpiresAt := none },
     scores)

/-- The Submission row inserted by `submit_result`. -/
def mkSub (tid wid lbl : String) (conf : ℚ) (now : Int) : Submission :=
  { taskId := tid, workerId := wid, label := lbl, confidence := conf, createdAt := now }

/-- `POST /workers/submit` (app.py `submit_result`).  Note the finalization
guard is `len(subs) >= required and not t.final_label`: Python truthiness,
so an empty-string final label does NOT block re-finalization. -/
def submitResult (s : State) (wid tid lbl : String) (conf : ℚ) (now : Int) :
    State × SubmitResp :=
  match s.tasks.find? (fun u => u.id == tid) with
  | none => (s, .notFound)
  | some t =>
    if hasSubmission s.submissions tid wid then (s, .ok true)
    else
      if pyOrNat t.requiredSubmissions 3 ≤
            (subsFor (s.submissions ++ [mkSub tid wid lbl conf now]) tid).length
          && !(optStrTruthy t.finalLabel) then
        ({ s with
            tasks := s.tasks.map fun u => if u.id == tid then
              (finalizeUpdate t (subsFor (s.submissions ++ [mkSub tid wid lbl conf now]) tid)
                s.scores).1 else u,
            submissions := s.submissions ++ [mkSub tid wid lbl conf now],
            scores := (finalizeUpdate t (subsFor (s.submissions ++ [mkSub tid wid lbl conf now]) tid)
              s.scores).2 },
         .ok false)
      else
        ({ s with submissions := s.submissions ++ [mkSub tid wid lbl conf now] }, .ok false)

-- ---------- Schema of the Submission table (models.py) ----------

/-- A secondary index declared on a table. -/
structure IndexSpec where
  columns : List String
  unique : Bool
deriving DecidableEq

/-- The indexes models.py declares on `Submission`: `Field(index=True)` on
`task_id` and on `worker_id` (both non-unique single-column indexes); the
class has no `__table_args__`, so no composite or unique index exists. -/
def submissionIndexes : List IndexSpec :=
  [{ columns := ["task_id"], unique := false },
   { columns := ["worker_id"], unique := false }]

/-- A raw store-level insert into the submission table.  Because
`submissionIndexes` contains no unique index, the store accepts any row,
including a second row for an existing `(task_id, worker_id)` pair. -/
def storeInsertSubmission (tbl : List Submission) (sub : Submission) :
    List Submission :=
  tbl ++ [sub]

-- ---------- Derived counting helpers used to state the claims ----------

/-- Number of submissions in `subs` carrying label `l`. -/
def labelCount (subs : List Submission) (l : String) : Nat :=
  (subs.filter fun sub => sub.label == l).length

/-- Mean confidence of the submissions in `subs` carrying label `l`. -/
def labelAvg (subs : List Submission) (l : String) : ℚ :=
  avgConf (subs.filter fun sub => sub.label == l)

/-- Transcribed from the claim for `NextTask`: a candidate is skipped iff its
type is outside the worker's known capability set, or it is assigned with an
unexpired lease, or this worker already has a submission for it. -/
def specSkip (s : State) (wid : String) (now : Int) (t : Task) : Bool :=
  (match t.type, workerCaps s wid with
   | some ty, some cs => ty != "" && !(cs.contains ty)
   | _, _ => false)
  || (t.status == "assigned" && (match t.leaseExpiresAt with
      | some e => decide (now < e)
      | none => false))
  || hasSubmission s.submissions t.id wid

-- ---------- Concrete execution traces used by counterexamples/witnesses ----------

/-- Trace A: one task with quorum 1; w1 finalizes it with label "a", then w2
and w3 submit label "b" — accepted because `submit_result` never checks the
task status. -/
def tA0 : State := createTask emptyState "t1" "T" none (some 1) none 0

def tA1 : State := (submitResult tA0 "w1" "t1" "a" 1 1).1

def tA2 : State := (submitResult tA1 "w2" "t1" "b" 1 2).1

def tA3 : State := (submitResult tA2 "w3" "t1" "b" 1 3).1

/-- Trace B: one task with `max_attempts = 1`; w1 claims it, the lease
expires, w2 claims it again. -/
def tB0 : State := createTask emptyState "t1" "T" none none (some 1) 0

def tB1 : State := (nextTask tB0 "w1" 10).1

def tB2 : State := (nextTask tB1 "w2" 61).1

/-- Trace C: one task with quorum 1 finalized with the EMPTY label; a second
submit re-enters the finalization block because `not t.final_label` is true
for `""`. -/
def tC0 : State := createTask emptyState "t1" "T" none (some 1) none 0

def tC1 : State := (submitResult tC0 "w1" "t1" "" 1 1).1

def tC2 : State := (submitResult tC1 "w2" "t1" "" 1 2).1

/-- The single task of trace A after creation. -/
def taskA : Task :=
  { id := "t1", text := "T", type := none, status := "queued", finalLabel := none,
    requiredSubmissions := 1, createdAt := 0, reservedBy := none, leaseExpiresAt := none,
    attempts := 0, maxAttempts := 5, errorMessage := none }

/-- The single task of trace A after finalization. -/
def taskA1 : Task := { taskA with status := "finalized", finalLabel := some "a" }

/-- An abandoned assigned task that has used up its attempt budget. -/
def wTaskMaxed : Task :=
  { id := "t9", text := "T", type := none, status := "assigned", finalLabel := none,
    requiredSubmissions := 3, createdAt := 0, reservedBy := some "w1",
    leaseExpiresAt := some 50, attempts := 5, maxAttempts := 5, errorMessage := none }

/-- A store that already holds a submission by w1 for t1. -/
def wStateDup : State :=
  { tasks := [taskA],
    submissions := [{ taskId := "t1", workerId := "w1", label := "a",
                      confidence := 1, createdAt := 0 }],
    workers := [], scores := [] }

/-- Invariant tying a bucket association list to the submission list it was
built from: every bucket holds exactly the submissions of its label (and is
nonempty), every submission's label owns a bucket, and keys are distinct. -/
def BucketsOk (subs : List Submission) (bs : List (String × List Submission)) : Prop :=
  (∀ p ∈ bs, p.2 = subs.filter (fun x => x.label == p.1))
  ∧ (∀ p ∈ bs, p.2 ≠ [])
  ∧ (∀ x ∈ subs, ∃ arr, (x.label, arr) ∈ bs)
  ∧ (bs.map Prod.fst).Nodup

/-- Invariant of the `best_label` fold: the accumulator is an already-seen
bucket whose size is maximal among the seen buckets, with maximal mean
confidence among the seen buckets of equal size. -/
def PickOk (seen : List (String × List Submission)) :
    Option (String × List Submission) → Prop
  | none => seen = []
  | some (l, arr) => (l, arr) ∈ seen ∧
      ∀ p ∈ seen, p.2.length ≤ arr.length ∧
        (p.2.length = arr.length → avgConf p.2 ≤ avgConf arr)

end DTCS

namespace DTCS

-- ===================== Theorems =====================

/-- C8 counterexample: the Submission table declares NO unique index at all
(models.py gives `task_id` and `worker_id` plain `Field(index=True)` and no
`__table_args__`), so no unique composite index on (task_id, worker_id)
exists. -/
theorem C8_counterexample : submissionIndexes.any (fun i => i.unique) = false := by
  decide

/-- C8 (amended): Submission carries exactly two non-unique single-column
indexes, on task_id and on worker_id; with no unique constraint the store
accepts a second row for an existing (task_id, worker_id) pair, so uniqueness
rests solely on the application-level check-then-insert. -/
theorem C8_submission_schema :
    submissionIndexes.map IndexSpec.columns = [["task_id"], ["worker_id"]]
    ∧ submissionIndexes.all (fun i => !i.unique) = true
    ∧ (storeInsertSubmission
        (storeInsertSubmission []
          { taskId := "t1", workerId := "w1", label := "a", confidence := 1, createdAt := 0 })
          { taskId := "t1", workerId := "w1", label := "b", confidence := 1, createdAt := 1 }).length = 2 := by
  decide

/-- C2 counterexample: with `max_attempts = 1`, a claim by w1 followed (after
lease expiry) by a claim by w2 drives `attempts` to 2 > 1, so the invariant
`attempts ≤ max_attempts` fails after a dispatcher claim. -/
theorem C2_counterexample :
    tB2.tasks.map Task.attempts = [2] ∧ tB2.tasks.map Task.maxAttempts = [1] := by
  decide

/-- C2 (amended): the dispatcher itself never caps `attempts`, but the reaper
half of the claim holds: whenever the reaper processes an abandoned assigned
task whose attempts have reached `max_attempts`, it transitions the task to
`failed` (never `queued`), and the reaper never modifies `attempts`. -/
theorem C2_reaper_caps (ws : List Worker) (now : Int) (t : Task) :
    (t.status = "assigned" → (leaseExpired now t || workerStale ws now t) = true →
      pyOrNat t.maxAttempts MAX_ATTEMPTS_DEFAULT ≤ t.attempts →
      (requeueTask ws now t).status = "failed" ∧ (requeueTask ws now t).status ≠ "queued")
    ∧ (requeueTask ws now t).attempts = t.attempts := by
  constructor
  · intro h1 h2 h3
    simp [requeueTask, h1, h2, h3]
  · unfold requeueTask
    split
    · split
      · split <;> rfl
      · rfl
    · rfl

theorem C2_reaper_caps_witness :
    wTaskMaxed.status = "assigned"
    ∧ (leaseExpired 100 wTaskMaxed || workerStale [] 100 wTaskMaxed) = true
    ∧ pyOrNat wTaskMaxed.maxAttempts MAX_ATTEMPTS_DEFAULT ≤ wTaskMaxed.attempts
    ∧ (requeueTask [] 100 wTaskMaxed).status = "failed" :=
  ⟨rfl, by decide, by decide,
    ((C2_reaper_caps [] 100 wTaskMaxed).1 rfl (by decide) (by decide)).1⟩

/-- C4 (code bug shown on the code): with quorum 1, w1 submits the EMPTY
label and the task finalizes with `final_label = ""` awarding w1 one point;
a later submit by w2 re-enters the finalization block (because
`not t.final_label` is true for the empty string) and awards w1 a SECOND
point for the same task, contradicting the exactly-once guarantee. -/
theorem C4_empty_label_refire :
    tC1.tasks.map Task.status = ["finalized"]
    ∧ tC1.tasks.map Task.finalLabel = [some ""]
    ∧ tC1.scores = [{ workerId := "w1", points := 1 }]
    ∧ tC2.scores = [{ workerId := "w1", points := 2 }, { workerId := "w2", points := 1 }] := by
  decide

/-- C5: the reaper's requeue phase treats one assigned task as follows: if
the lease has not expired and the reserved worker is not a stale known worker
the task is untouched (in particular when `reserved_by` names an unknown
worker id and the lease is unexpired); if abandoned with
`attempts ≥ max_attempts` it becomes `failed` keeping a prior non-empty error
message and otherwise getting "max attempts reached"; if abandoned below the
cap it returns to `queued` with the reservation cleared; and `attempts` is
never modified. -/
theorem C5_requeue_cases (ws : List Worker) (now : Int) (t : Task) :
    ((t.status = "assigned" → leaseExpired now t = false → workerStale ws now t = false →
      requeueTask ws now t = t)
    ∧ (∀ rid, t.status = "assigned" → t.reservedBy = some rid →
        ws.find? (fun w => w.workerId == rid) = none → leaseExpired now t = false →
        requeueTask ws now t = t))
    ∧ ((t.status = "assigned" → (leaseExpired now t || workerStale ws now t) = true →
        pyOrNat t.maxAttempts MAX_ATTEMPTS_DEFAULT ≤ t.attempts →
        requeueTask ws now t =
          { t with status := "failed",
                   errorMessage := some (pyOrStr t.errorMessage "max attempts reached"),
                   reservedBy := none, leaseExpiresAt := none })
    ∧ (t.errorMessage = none → pyOrStr t.errorMessage "max attempts reached" = "max attempts reached")
    ∧ (∀ m, t.errorMessage = some m → m ≠ "" → pyOrStr t.errorMessage "max attempts reached" = m))
    ∧ (t.status = "assigned" → (leaseExpired now t || workerStale ws now t) = true →
        t.attempts < pyOrNat t.maxAttempts MAX_ATTEMPTS_DEFAULT →
        requeueTask ws now t =
          { t with status := "queued", reservedBy := none, leaseExpiresAt := none })
    ∧ (requeueTask ws now t).attempts = t.attempts := by
  refine ⟨⟨?_, ?_⟩, ⟨?_, ?_, ?_⟩, ?_, ?_⟩
  · intro h1 h2 h3
    simp [requeueTask, h1, h2, h3]
  · intro rid h1 h2 hfind hlease
    have hstale : workerStale ws now t = false := by
      simp [workerStale, h2, hfind]
    simp [requeueTask, h1, hlease, hstale]
  · intro h1 h2 h3
    simp [requeueTask, h1, h2, h3]
  · intro h
    simp [pyOrStr, h]
  · intro m hm hne
    simp [pyOrStr, hm, hne]
  · intro h1 h2 h3
    simp [requeueTask, h1, h2, Nat.not_le.mpr h3]
  · unfold requeueTask
    split
    · split
      · split <;> rfl
      · rfl
    · rfl

theorem C5_requeue_cases_witness :
    wTaskMaxed.status = "assigned"
    ∧ (leaseExpired 100 wTaskMaxed || workerStale [] 100 wTaskMaxed) = true
    ∧ pyOrNat wTaskMaxed.maxAttempts MAX_ATTEMPTS_DEFAULT ≤ wTaskMaxed.attempts
    ∧ requeueTask [] 100 wTaskMaxed =
        { wTaskMaxed with status := "failed",
                          errorMessage := some (pyOrStr wTaskMaxed.errorMessage "max attempts reached"),
                          reservedBy := none, leaseExpiresAt := none } :=
  ⟨rfl, by decide, by decide,
    (C5_requeue_cases [] 100 wTaskMaxed).2.1.1 rfl (by decide) (by decide)⟩

/-- C6: `Submit` is idempotent per (task_id, worker_id): when a submission for
the pair already exists the call returns ok with duplicate = true and the
whole store — the existing submission, the task, all scores — is unchanged. -/
theorem C6_submit_duplicate (s : State) (wid tid lbl : String) (conf : ℚ) (now : Int)
    (t : Task)
    (ht : s.tasks.find? (fun u => u.id == tid) = some t)
    (hdup : hasSubmission s.submissions tid wid = true) :
    submitResult s wid tid lbl conf now = (s, .ok true) := by
  unfold submitResult
  rw [ht]
  simp [hdup]

theorem C6_submit_duplicate_witness :
    wStateDup.tasks.find? (fun u => u.id == "t1") = some taskA
    ∧ hasSubmission wStateDup.submissions "t1" "w1" = true
    ∧ submitResult wStateDup "w1" "t1" "zzz" 0 7 = (wStateDup, .ok true) :=
  ⟨by decide, by decide,
    C6_submit_duplicate wStateDup "w1" "t1" "zzz" 0 7 taskA (by decide) (by decide)⟩

/-- C7: a heartbeat sets `lease_expires_at := now + LEASE_SECONDS` on exactly
the tasks `status = assigned ∧ reserved_by = worker_id` (whether or not the
worker was known — the extension runs in the auto-register branch too),
leaves every other task and the submissions and scores untouched, and records
the worker as active with `last_seen = now`. -/
theorem C7_heartbeat_extends (s : State) (wid : String) (now : Int) :
    (heartbeat s wid now).tasks = s.tasks.map (fun t =>
      if t.status = "assigned" ∧ t.reservedBy = some wid then
        { t with leaseExpiresAt := some (now + LEASE_SECONDS) } else t)
    ∧ (∃ w ∈ (heartbeat s wid now).workers,
        w.workerId = wid ∧ w.status = "active" ∧ w.lastSeen = some now)
    ∧ (heartbeat s wid now).submissions = s.submissions
    ∧ (heartbeat s wid now).scores = s.scores := by
  refine ⟨?_, ?_, rfl, rfl⟩
  · apply List.map_congr_left
    intro t _
    by_cases h1 : t.status = "assigned" <;> by_cases h2 : t.reservedBy = some wid <;>
      simp [h1, h2]
  · unfold heartbeat
    by_cases hany : s.workers.any (fun w => w.workerId == wid) = true
    · obtain ⟨w0, hmem, hw0⟩ := List.any_eq_true.mp hany
      have hid : w0.workerId = wid := by simpa using hw0
      refine ⟨{ w0 with status := "active", lastSeen := some now }, ?_, hid, rfl, rfl⟩
      simp only [hany, if_true]
      have := List.mem_map_of_mem
        (f := fun w => if w.workerId == wid then
          { w with status := "active", lastSeen := some now } else w) hmem
      simpa [hw0] using this
    · refine ⟨{ workerId := wid, status := "active", lastSeen := some now,
                createdAt := now, capabilities := none }, ?_, rfl, rfl, rfl⟩
      simp [hany]

-- ---------- Lemmas for the dispatcher characterization (C3) ----------

theorem findClaim_eq_find? (skip : Task → Bool) (l : List Task) :
    findClaim skip l = l.find? (fun t => !skip t) := by
  induction l with
  | nil => rfl
  | cons t ts ih =>
    by_cases h : skip t = true <;>
      simp [findClaim, List.find?_cons, h, ih]

theorem mem_insertSorted (le : Task → Task → Bool) (x t : Task) (l : List Task) :
    t ∈ insertSorted le x l ↔ t = x ∨ t ∈ l := by
  induction l with
  | nil => simp [insertSorted]
  | cons u us ih =>
    unfold insertSorted
    by_cases h : le x u = true
    · simp [h]
    · simp [h, ih]
      tauto

theorem mem_sortTasks (le : Task → Task → Bool) (l : List Task) (t : Task) :
    t ∈ sortTasks le l ↔ t ∈ l := by
  induction l with
  | nil => simp [sortTasks]
  | cons u us ih =>
    simp [sortTasks, mem_insertSorted, ih]

theorem find?_congr_of_mem {p q : Task → Bool} (l : List Task)
    (h : ∀ t ∈ l, p t = q t) : l.find? p = l.find? q := by
  induction l with
  | nil => rfl
  | cons t ts ih =>
    rw [List.find?_cons, List.find?_cons, h t (by simp),
      ih (fun u hu => h u (by simp [hu]))]

theorem codeSkip_eq_specSkip (s : State) (wid : String) (now : Int) (t : Task)
    (h : (t.status == "queued" || t.status == "assigned") = true) :
    codeSkip s wid now (workerCaps s wid) t = specSkip s wid now t := by
  rcases (by simpa using h : t.status = "queued" ∨ t.status = "assigned") with h1 | h1 <;>
    simp [codeSkip, specSkip, h1]

/-- C3: `NextTask` claims exactly the first task, in `(created_at, id)`
order among tasks with status queued or assigned, that is not skipped
(skipped: type outside the worker's known capability set; assigned with an
unexpired lease; this worker already submitted), setting
status ← assigned, reserved_by ← worker, lease ← now + LEASE_SECONDS and
attempts ← attempts + 1; when every candidate is skipped it returns empty
and changes nothing. -/
theorem C3_next_task_dispatch (s : State) (wid : String) (now : Int) :
    nextTask s wid now =
      match (candidates s.tasks).find? (fun t => !specSkip s wid now t) with
      | some t =>
        ({ s with tasks := s.tasks.map fun u =>
            if u.id == t.id then
              { u with status := "assigned", reservedBy := some wid,
                       leaseExpiresAt := some (now + LEASE_SECONDS),
                       attempts := u.attempts + 1 }
            else u },
         some (t.id, t.text))
      | none => (s, none) := by
  have hcongr : (candidates s.tasks).find?
        (fun t => !codeSkip s wid now (workerCaps s wid) t)
      = (candidates s.tasks).find? (fun t => !specSkip s wid now t) := by
    apply find?_congr_of_mem
    intro t ht
    have hmem : t ∈ s.tasks.filter
        (fun t => t.status == "queued" || t.status == "assigned") :=
      (mem_sortTasks _ _ t).mp ht
    rw [codeSkip_eq_specSkip s wid now t (List.mem_filter.mp hmem).2]
  unfold nextTask
  rw [findClaim_eq_find?, hcongr]
  rfl

-- ---------- Lemmas for reaper idempotence (C9) ----------

theorem staleWorker_idem (now : Int) (w : Worker) :
    staleWorker now (staleWorker now w) = staleWorker now w := by
  by_cases h : ((match w.lastSeen with
      | some ls => decide (ls < now - HEARTBEAT_TTL_SECONDS)
      | none => false) && w.status != "stale") = true
  · have h1 : staleWorker now w = { w with status := "stale" } := by
      simp only [staleWorker, h, if_true]
    rw [h1]
    simp [staleWorker]
  · have h1 : staleWorker now w = w := by
      simp [staleWorker, h]
    rw [h1]
    exact h1

theorem requeueTask_idem (ws : List Worker) (now : Int) (t : Task) :
    requeueTask ws now (requeueTask ws now t) = requeueTask ws now t := by
  by_cases h1 : (t.status == "assigned") = true
  · by_cases h2 : (leaseExpired now t || workerStale ws now t) = true
    · by_cases h3 : pyOrNat t.maxAttempts MAX_ATTEMPTS_DEFAULT ≤ t.attempts
      · have e : requeueTask ws now t =
            { t with status := "failed",
                     errorMessage := some (pyOrStr t.errorMessage "max attempts reached"),
                     reservedBy := none, leaseExpiresAt := none } := by
          simp [requeueTask, h1, h2, h3]
        rw [e]
        simp [requeueTask]
      · have e : requeueTask ws now t =
            { t with status := "queued", reservedBy := none, leaseExpiresAt := none } := by
          simp [requeueTask, h1, h2, h3]
        rw [e]
        simp [requeueTask]
    · have e : requeueTask ws now t = t := by
        simp [requeueTask, h1, h2]
      rw [e]
      exact e
  · have e : requeueTask ws now t = t := by
      simp [requeueTask, h1]
    rw [e]
    exact e

/-- C9: one reaper sweep (mark stale workers, then requeue expired leases) is
idempotent: with no interleaved operation and the clock held fixed, a second
sweep changes neither the workers nor the tasks. -/
theorem C9_reaper_idempotent (now : Int) (s : State) :
    reaperSweep now (reaperSweep now s) = reaperSweep now s := by
  cases s with
  | mk ts sb ws sc =>
    have hW : (ws.map (staleWorker now)).map (staleWorker now)
        = ws.map (staleWorker now) := by
      rw [List.map_map]
      apply List.map_congr_left
      intro w _
      simpa using staleWorker_idem now w
    simp only [reaperSweep, requeueExpired, markStaleWorkers]
    rw [hW, List.map_map]
    congr 1
    apply List.map_congr_left
    intro t _
    simpa using requeueTask_idem (ws.map (staleWorker now)) now t

-- ---------- Lemmas on the finalization buckets (C1) ----------

theorem addToBuckets_keys (bs : List (String × List Submission)) (sub : Submission) :
    (addToBuckets bs sub).map Prod.fst =
      if sub.label ∈ bs.map Prod.fst then bs.map Prod.fst
      else bs.map Prod.fst ++ [sub.label] := by
  induction bs with
  | nil => simp [addToBuckets]
  | cons p rest ih =>
    obtain ⟨l, arr⟩ := p
    by_cases h : (l == sub.label) = true
    · have hl : l = sub.label := beq_iff_eq.mp h
      simp [addToBuckets, h, hl]
    · have hne : ¬ l = sub.label := by simpa using h
      have hne' : ¬ sub.label = l := fun hs => hne hs.symm
      by_cases h2 : sub.label ∈ rest.map Prod.fst <;>
        simp [addToBuckets, h, ih, h2, hne, hne']

theorem mem_addToBuckets (bs : List (String × List Submission)) (sub : Submission)
    (hnd : (bs.map Prod.fst).Nodup) :
    ∀ p ∈ addToBuckets bs sub,
      (p.1 ≠ sub.label ∧ p ∈ bs)
      ∨ (∃ arr, (sub.label, arr) ∈ bs ∧ p = (sub.label, arr ++ [sub]))
      ∨ (sub.label ∉ bs.map Prod.fst ∧ p = (sub.label, [sub])) := by
  induction bs with
  | nil =>
    intro p hp
    right; right
    refine ⟨by simp, ?_⟩
    simpa [addToBuckets] using hp
  | cons q rest ih =>
    obtain ⟨l, arr⟩ := q
    have hlnotin : l ∉ rest.map Prod.fst := by
      have := hnd
      simp only [List.map_cons, List.nodup_cons] at this
      exact this.1
    have hndrest : (rest.map Prod.fst).Nodup := by
      have := hnd
      simp only [List.map_cons, List.nodup_cons] at this
      exact this.2
    intro p hp
    by_cases h : (l == sub.label) = true
    · have hl : l = sub.label := beq_iff_eq.mp h
      rw [addToBuckets, if_pos h] at hp
      rcases List.mem_cons.mp hp with hp | hp
      · right; left
        exact ⟨arr, by simp [hl], by simpa [hl] using hp⟩
      · left
        refine ⟨?_, List.mem_cons_of_mem _ hp⟩
        intro hps
        apply hlnotin
        rw [hl, ← hps]
        exact List.mem_map_of_mem Prod.fst hp
    · have hne : ¬ l = sub.label := by simpa using h
      rw [addToBuckets, if_neg h] at hp
      rcases List.mem_cons.mp hp with hp | hp
      · left
        exact ⟨by simpa [hp] using hne, by simp [hp]⟩
      · rcases ih hndrest p hp with ⟨hp1, hp2⟩ | ⟨arr', hmem, hpe⟩ | ⟨hnotin, hpe⟩
        · exact Or.inl ⟨hp1, List.mem_cons_of_mem _ hp2⟩
        · exact Or.inr (Or.inl ⟨arr', List.mem_cons_of_mem _ hmem, hpe⟩)
        · refine Or.inr (Or.inr ⟨?_, hpe⟩)
          simp only [List.map_cons, List.mem_cons]
          rintro (hs | hs)
          · exact hne hs.symm
          · exact hnotin hs

theorem addToBuckets_exists (bs : List (String × List Submission)) (sub : Submission) :
    ∃ arr, (sub.label, arr) ∈ addToBuckets bs sub := by
  induction bs with
  | nil => exact ⟨[sub], by simp [addToBuckets]⟩
  | cons q rest ih =>
    obtain ⟨l, arr⟩ := q
    by_cases h : (l == sub.label) = true
    · have hl : l = sub.label := beq_iff_eq.mp h
      exact ⟨arr ++ [sub], by simp [addToBuckets, h, hl]⟩
    · obtain ⟨arr', harr'⟩ := ih
      exact ⟨arr', by simp [addToBuckets, h, List.mem_cons_of_mem _ harr']⟩

theorem addToBuckets_preserves (bs : List (String × List Submission)) (sub : Submission)
    (l' : String) (h : ∃ arr, (l', arr) ∈ bs) :
    ∃ arr, (l', arr) ∈ addToBuckets bs sub := by
  induction bs with
  | nil => simp at h
  | cons q rest ih =>
    obtain ⟨l, arr⟩ := q
    obtain ⟨arr0, harr0⟩ := h
    by_cases hb : (l == sub.label) = true
    · rcases List.mem_cons.mp harr0 with he | hm
      · have : l' = l ∧ arr0 = arr := by
          constructor <;> [exact congrArg Prod.fst he; exact congrArg Prod.snd he]
        exact ⟨arr ++ [sub], by simp [addToBuckets, hb, this.1]⟩
      · exact ⟨arr0, by simp [addToBuckets, hb, List.mem_cons_of_mem _ hm]⟩
    · rcases List.mem_cons.mp harr0 with he | hm
      · exact ⟨arr0, by simp [addToBuckets, hb, he]⟩
      · obtain ⟨arr', harr'⟩ := ih ⟨arr0, hm⟩
        exact ⟨arr', by simp [addToBuckets, hb, List.mem_cons_of_mem _ harr']⟩

theorem addToBuckets_keys_nodup (bs : List (String × List Submission)) (sub : Submission)
    (hnd : (bs.map Prod.fst).Nodup) :
    ((addToBuckets bs sub).map Prod.fst).Nodup := by
  rw [addToBuckets_keys]
  by_cases h : sub.label ∈ bs.map Prod.fst
  · simpa [h] using hnd
  · rw [if_neg h]
    simp [List.nodup_append, h, hnd]

theorem bucketsOk_step (pre : List Submission) (bs : List (String × List Submission))
    (sub : Submission) (h : BucketsOk pre bs) :
    BucketsOk (pre ++ [sub]) (addToBuckets bs sub) := by
  obtain ⟨hcont, hne, hcomp, hnd⟩ := h
  refine ⟨?_, ?_, ?_, addToBuckets_keys_nodup bs sub hnd⟩
  · intro p hp
    rcases mem_addToBuckets bs sub hnd p hp with ⟨hpne, hmem⟩ | ⟨arr, hmem, hpe⟩ | ⟨hnotin, hpe⟩
    · rw [List.filter_append]
      have hnil : [sub].filter (fun x => x.label == p.1) = [] := by
        simp only [List.filter_eq_nil_iff, List.mem_singleton]
        intro a ha
        subst ha
        simpa using fun hs => hpne hs.symm
      rw [hnil, List.append_nil]
      exact hcont p hmem
    · subst hpe
      simp only
      rw [List.filter_append, ← hcont _ hmem]
      simp
    · subst hpe
      simp only
      rw [List.filter_append]
      have hnil : pre.filter (fun x => x.label == sub.label) = [] := by
        simp only [List.filter_eq_nil_iff]
        intro a ha hbeq
        obtain ⟨arr, harr⟩ := hcomp a ha
        apply hnotin
        rw [← beq_iff_eq.mp hbeq]
        exact List.mem_map_of_mem Prod.fst harr
      rw [hnil]
      simp
  · intro p hp
    rcases mem_addToBuckets bs sub hnd p hp with ⟨_, hmem⟩ | ⟨arr, _, hpe⟩ | ⟨_, hpe⟩
    · exact hne p hmem
    · subst hpe
      simp
    · subst hpe
      simp
  · intro x hx
    rcases List.mem_append.mp hx with hx | hx
    · exact addToBuckets_preserves bs sub x.label (hcomp x hx)
    · have hxe : x = sub := by simpa using hx
      rw [hxe]
      exact addToBuckets_exists bs sub

theorem bucketsOk_foldl (rest : List Submission) :
    ∀ (pre : List Submission) (bs : List (String × List Submission)),
      BucketsOk pre bs → BucketsOk (pre ++ rest) (rest.foldl addToBuckets bs) := by
  induction rest with
  | nil =>
    intro pre bs h
    simpa using h
  | cons x xs ih =>
    intro pre bs h
    have := ih (pre ++ [x]) (addToBuckets bs x) (bucketsOk_step pre bs x h)
    simpa using this

theorem buckets_ok (subs : List Submission) : BucketsOk subs (buckets subs) := by
  have h0 : BucketsOk [] ([] : List (String × List Submission)) := by
    refine ⟨?_, ?_, ?_, ?_⟩ <;> simp
  have := bucketsOk_foldl subs [] [] h0
  simpa [buckets] using this

theorem buckets_ne_nil {subs : List Submission} (h : subs ≠ []) :
    buckets subs ≠ [] := by
  obtain ⟨x, hx⟩ := List.exists_mem_of_ne_nil subs h
  obtain ⟨arr, harr⟩ := (buckets_ok subs).2.2.1 x hx
  intro hnil
  rw [hnil] at harr
  simp at harr

-- ---------- Lemmas on the best-label fold (C1) ----------

theorem pickOk_step (seen : List (String × List Submission))
    (acc : Option (String × List Submission)) (b : String × List Submission)
    (h : PickOk seen acc) : PickOk (seen ++ [b]) (pickStep acc b) := by
  match acc with
  | none =>
    have hseen : seen = [] := h
    subst hseen
    refine ⟨by simp, ?_⟩
    intro p hp
    have hpb : p = b := by simpa using hp
    rw [hpb]
    exact ⟨le_refl _, fun _ => le_refl _⟩
  | some (l, arr) =>
    obtain ⟨hmem, hmax⟩ := h
    show PickOk (seen ++ [b]) (pickStep (some (l, arr)) b)
    rw [pickStep]
    by_cases h1 : arr.length < b.2.length
    · rw [if_pos h1]
      refine ⟨by simp, ?_⟩
      intro p hp
      rcases List.mem_append.mp hp with hp | hp
      · have hm := hmax p hp
        refine ⟨le_trans hm.1 (le_of_lt h1), fun he => ?_⟩
        omega
      · have hpb : p = b := by simpa using hp
        rw [hpb]
        exact ⟨le_refl _, fun _ => le_refl _⟩
    · rw [if_neg h1]
      by_cases h2 : (b.2.length == arr.length && decide (avgConf arr < avgConf b.2)) = true
      · rw [if_pos h2]
        have hlen : b.2.length = arr.length := by
          have := ((Bool.and_eq_true _ _).mp h2).1
          simpa using this
        have havg : avgConf arr < avgConf b.2 :=
          of_decide_eq_true ((Bool.and_eq_true _ _).mp h2).2
        refine ⟨by simp, ?_⟩
        intro p hp
        rcases List.mem_append.mp hp with hp | hp
        · have hm := hmax p hp
          refine ⟨by omega, fun he => ?_⟩
          exact le_of_lt (lt_of_le_of_lt (hm.2 (by omega)) havg)
        · have hpb : p = b := by simpa using hp
          rw [hpb]
          exact ⟨le_refl _, fun _ => le_refl _⟩
      · rw [if_neg h2]
        refine ⟨List.mem_append_left _ hmem, ?_⟩
        intro p hp
        rcases List.mem_append.mp hp with hp | hp
        · exact hmax p hp
        · have hpb : p = b := by simpa using hp
          rw [hpb]
          refine ⟨Nat.le_of_not_lt h1, fun he => ?_⟩
          have hno : ¬ avgConf arr < avgConf b.2 := by
            intro hlt
            exact h2 (by simp [he, hlt])
          exact le_of_not_lt hno

theorem pickOk_foldl (bs : List (String × List Submission)) :
    ∀ (seen : List (String × List Submission)) (acc : Option (String × List Submission)),
      PickOk seen acc → PickOk (seen ++ bs) (bs.foldl pickStep acc) := by
  induction bs with
  | nil =>
    intro seen acc h
    simpa using h
  | cons b rest ih =>
    intro seen acc h
    have := ih (seen ++ [b]) (pickStep acc b) (pickOk_step seen acc b h)
    simpa using this

theorem bestLabel_spec (subs : List Submission) (hne : subs ≠ []) :
    ∃ L arr, bestLabel subs = some (L, arr)
      ∧ labelCount subs L = arr.length
      ∧ (∀ l, labelCount subs l ≤ labelCount subs L)
      ∧ (∀ l, labelCount subs l = labelCount subs L →
          labelAvg subs l ≤ labelAvg subs L) := by
  obtain ⟨hcont, hbne, hcomp, _⟩ := buckets_ok subs
  have hpick : PickOk (buckets subs) ((buckets subs).foldl pickStep none) := by
    have := pickOk_foldl (buckets subs) [] none rfl
    simpa using this
  rcases hopt : (buckets subs).foldl pickStep none with _ | ⟨L, arr⟩
  · exfalso
    rw [hopt] at hpick
    exact buckets_ne_nil hne hpick
  · rw [hopt] at hpick
    obtain ⟨hmem, hmax⟩ := hpick
    have harr : arr = subs.filter (fun x => x.label == L) := hcont (L, arr) hmem
    have hcntL : labelCount subs L = arr.length := by
      rw [labelCount, ← harr]
    refine ⟨L, arr, hopt, hcntL, ?_, ?_⟩
    · intro l
      by_cases hl : subs.filter (fun x => x.label == l) = []
      · rw [labelCount, hl, hcntL]
        simp
      · obtain ⟨x, hx⟩ := List.exists_mem_of_ne_nil _ hl
        have hx' := List.mem_filter.mp hx
        have hxl : x.label = l := beq_iff_eq.mp hx'.2
        obtain ⟨arr', harr'⟩ := hcomp x hx'.1
        rw [hxl] at harr'
        have := (hmax (l, arr') harr').1
        rw [labelCount, ← hcont (l, arr') harr', hcntL]
        exact this
    · intro l hcnt
      by_cases hl : subs.filter (fun x => x.label == l) = []
      · exfalso
        rw [labelCount, hl, hcntL] at hcnt
        have : arr ≠ [] := hbne (L, arr) hmem
        simp only [List.length_nil] at hcnt
        exact this (List.length_eq_zero.mp hcnt.symm)
      · obtain ⟨x, hx⟩ := List.exists_mem_of_ne_nil _ hl
        have hx' := List.mem_filter.mp hx
        have hxl : x.label = l := beq_iff_eq.mp hx'.2
        obtain ⟨arr', harr'⟩ := hcomp x hx'.1
        rw [hxl] at harr'
        have hlen : arr'.length = arr.length := by
          rw [labelCount, ← hcont (l, arr') harr', hcntL] at hcnt
          exact hcnt
        have := (hmax (l, arr') harr').2 hlen
        rw [labelAvg, labelAvg, ← harr, ← hcont (l, arr') harr']
        exact this

theorem find?_map_replace (tasks : List Task) (tid : String) (t' : Task)
    (hid : t'.id = tid) :
    (tasks.map fun u => if u.id == tid then t' else u).find? (fun u => u.id == tid)
      = (tasks.find? (fun u => u.id == tid)).map (fun u => if u.id == tid then t' else u) := by
  rw [List.find?_map]
  congr 1
  apply find?_congr_of_mem
  intro u _
  by_cases hu : u.id = tid <;>
    simp [Function.comp_apply, hu, hid]

/-- C1 (amended): on the Submit call that fires finalization (count reached
`required_submissions` with falsy `final_label`), the task ends finalized
with `final_label` a plurality label of its submissions at that instant,
ties in count decided only in favour of labels of maximal mean confidence;
the invariant over all LATER submission multisets does not hold (see the
counterexample). -/
theorem C1_finalization_plurality (s : State) (wid tid lbl : String) (conf : ℚ)
    (now : Int) (t : Task)
    (ht : s.tasks.find? (fun u => u.id == tid) = some t)
    (hdup : hasSubmission s.submissions tid wid = false)
    (hreq : pyOrNat t.requiredSubmissions 3 ≤
      (subsFor (s.submissions ++ [mkSub tid wid lbl conf now]) tid).length)
    (hfin : optStrTruthy t.finalLabel = false) :
    (submitResult s wid tid lbl conf now).2 = .ok false
    ∧ (submitResult s wid tid lbl conf now).1.submissions
        = s.submissions ++ [mkSub tid wid lbl conf now]
    ∧ ∃ t', (submitResult s wid tid lbl conf now).1.tasks.find?
          (fun u => u.id == tid) = some t'
      ∧ t'.status = "finalized"
      ∧ ∃ L, t'.finalLabel = some L
        ∧ pyOrNat t.requiredSubmissions 3 ≤
            (subsFor (s.submissions ++ [mkSub tid wid lbl conf now]) tid).length
        ∧ (∀ l, labelCount (subsFor (s.submissions ++ [mkSub tid wid lbl conf now]) tid) l
            ≤ labelCount (subsFor (s.submissions ++ [mkSub tid wid lbl conf now]) tid) L)
        ∧ (∀ l, labelCount (subsFor (s.submissions ++ [mkSub tid wid lbl conf now]) tid) l
              = labelCount (subsFor (s.submissions ++ [mkSub tid wid lbl conf now]) tid) L
            → labelAvg (subsFor (s.submissions ++ [mkSub tid wid lbl conf now]) tid) l
              ≤ labelAvg (subsFor (s.submissions ++ [mkSub tid wid lbl conf now]) tid) L) := by
  have htid : t.id = tid := by
    have h := List.find?_some ht
    simpa using h
  have hcond : (pyOrNat t.requiredSubmissions 3 ≤
      (subsFor (s.submissions ++ [mkSub tid wid lbl conf now]) tid).length
      && !(optStrTruthy t.finalLabel)) = true := by
    simp [hreq, hfin]
  have hsne : subsFor (s.submissions ++ [mkSub tid wid lbl conf now]) tid ≠ [] := by
    have hmem : mkSub tid wid lbl conf now
        ∈ subsFor (s.submissions ++ [mkSub tid wid lbl conf now]) tid := by
      simp [subsFor, mkSub]
    intro hno
    rw [hno] at hmem
    simp at hmem
  obtain ⟨L, arr, hbl, hcnt, hmaxc, hmaxa⟩ := bestLabel_spec _ hsne
  have hfu : (finalizeUpdate t (subsFor (s.submissions ++ [mkSub tid wid lbl conf now]) tid)
        s.scores).1 =
      { t with finalLabel := some L, status := "finalized",
               reservedBy := none, leaseExpiresAt := none } := by
    rw [finalizeUpdate]
    rw [show bestLabel (subsFor (s.submissions ++ [mkSub tid wid lbl conf now]) tid)
        = some (L, arr) from hbl]
  have hres : submitResult s wid tid lbl conf now =
      ({ s with
          tasks := s.tasks.map fun u => if u.id == tid then
            (finalizeUpdate t (subsFor (s.submissions ++ [mkSub tid wid lbl conf now]) tid)
              s.scores).1 else u,
          submissions := s.submissions ++ [mkSub tid wid lbl conf now],
          scores := (finalizeUpdate t (subsFor (s.submissions ++ [mkSub tid wid lbl conf now]) tid)
            s.scores).2 },
       .ok false) := by
    rw [submitResult, ht]
    simp only [hdup, Bool.false_eq_true, if_false, hcond, if_true]
  refine ⟨by rw [hres], by rw [hres], ?_⟩
  rw [hres]
  simp only
  have hT'id : ((finalizeUpdate t
      (subsFor (s.submissions ++ [mkSub tid wid lbl conf now]) tid) s.scores).1).id = tid := by
    rw [hfu]
    exact htid
  rw [find?_map_replace s.tasks tid _ hT'id, ht]
  refine ⟨(finalizeUpdate t (subsFor (s.submissions ++ [mkSub tid wid lbl conf now]) tid)
      s.scores).1, ?_, ?_, L, ?_, hreq, hmaxc, hmaxa⟩
  · simp [htid]
  · rw [hfu]
  · rw [hfu]

theorem C1_finalization_plurality_witness :
    tA0.tasks.find? (fun u => u.id == "t1") = some taskA
    ∧ hasSubmission tA0.submissions "t1" "w1" = false
    ∧ pyOrNat taskA.requiredSubmissions 3 ≤
        (subsFor (tA0.submissions ++ [mkSub "t1" "w1" "a" 1 1]) "t1").length
    ∧ optStrTruthy taskA.finalLabel = false
    ∧ ((submitResult tA0 "w1" "t1" "a" 1 1).2 = .ok false
      ∧ (submitResult tA0 "w1" "t1" "a" 1 1).1.submissions
          = tA0.submissions ++ [mkSub "t1" "w1" "a" 1 1]
      ∧ ∃ t', (submitResult tA0 "w1" "t1" "a" 1 1).1.tasks.find?
            (fun u => u.id == "t1") = some t'
        ∧ t'.status = "finalized"
        ∧ ∃ L, t'.finalLabel = some L
          ∧ pyOrNat taskA.requiredSubmissions 3 ≤
              (subsFor (tA0.submissions ++ [mkSub "t1" "w1" "a" 1 1]) "t1").length
          ∧ (∀ l, labelCount (subsFor (tA0.submissions ++ [mkSub "t1" "w1" "a" 1 1]) "t1") l
              ≤ labelCount (subsFor (tA0.submissions ++ [mkSub "t1" "w1" "a" 1 1]) "t1") L)
          ∧ (∀ l, labelCount (subsFor (tA0.submissions ++ [mkSub "t1" "w1" "a" 1 1]) "t1") l
                = labelCount (subsFor (tA0.submissions ++ [mkSub "t1" "w1" "a" 1 1]) "t1") L
              → labelAvg (subsFor (tA0.submissions ++ [mkSub "t1" "w1" "a" 1 1]) "t1") l
                ≤ labelAvg (subsFor (tA0.submissions ++ [mkSub "t1" "w1" "a" 1 1]) "t1") L)) :=
  ⟨by decide, by decide, by decide, by decide,
    C1_finalization_plurality tA0 "w1" "t1" "a" 1 1 taskA
      (by decide) (by decide) (by decide) (by decide)⟩

/-- C1 counterexample: after finalization (final_label = "a", one "a"
submission) two further submissions with label "b" are accepted, so the
finalized task's final_label is no longer a plurality label of its
submissions — the claimed invariant fails on this reachable state. -/
theorem C1_counterexample :
    tA3.tasks.map Task.status = ["finalized"]
    ∧ tA3.tasks.map Task.finalLabel = [some "a"]
    ∧ labelCount (subsFor tA3.submissions "t1") "a" = 1
    ∧ labelCount (subsFor tA3.submissions "t1") "b" = 2 := by
  decide

/-- C10 (amended): Submit never inspects the task status: on any existing
finalized or failed task, a worker with no prior submission gets its row
inserted and ok returned; and provided the stored final_label is a NON-EMPTY
string, the tasks and the scores are untouched (for the empty string the
finalization block re-runs — see the counterexample). -/
theorem C10_submit_ignores_status (s : State) (wid tid lbl : String) (conf : ℚ)
    (now : Int) (t : Task)
    (ht : s.tasks.find? (fun u => u.id == tid) = some t)
    (_hstatus : t.status = "finalized" ∨ t.status = "failed")
    (hdup : hasSubmission s.submissions tid wid = false) :
    (submitResult s wid tid lbl conf now).2 = .ok false
    ∧ (submitResult s wid tid lbl conf now).1.submissions
        = s.submissions ++ [mkSub tid wid lbl conf now]
    ∧ (∀ l, t.finalLabel = some l → l ≠ "" →
        (submitResult s wid tid lbl conf now).1.tasks = s.tasks
        ∧ (submitResult s wid tid lbl conf now).1.scores = s.scores) := by
  have hbase : submitResult s wid tid lbl conf now =
      (if pyOrNat t.requiredSubmissions 3 ≤
            (subsFor (s.submissions ++ [mkSub tid wid lbl conf now]) tid).length
          && !(optStrTruthy t.finalLabel) then
        ({ s with
            tasks := s.tasks.map fun u => if u.id == tid then
              (finalizeUpdate t (subsFor (s.submissions ++ [mkSub tid wid lbl conf now]) tid)
                s.scores).1 else u,
            submissions := s.submissions ++ [mkSub tid wid lbl conf now],
            scores := (finalizeUpdate t
              (subsFor (s.submissions ++ [mkSub tid wid lbl conf now]) tid) s.scores).2 },
         .ok false)
      else
        ({ s with submissions := s.submissions ++ [mkSub tid wid lbl conf now] }, .ok false)) := by
    rw [submitResult, ht]
    simp only [hdup, Bool.false_eq_true, if_false]
  refine ⟨?_, ?_, ?_⟩
  · rw [hbase]
    split <;> rfl
  · rw [hbase]
    split <;> rfl
  · intro l hl hne
    have htr : optStrTruthy t.finalLabel = true := by
      simp [optStrTruthy, hl, hne]
    have hcond : (pyOrNat t.requiredSubmissions 3 ≤
        (subsFor (s.submissions ++ [mkSub tid wid lbl conf now]) tid).length
        && !(optStrTruthy t.finalLabel)) = false := by
      simp [htr]
    rw [hbase, hcond]
    exact ⟨rfl, rfl⟩

theorem C10_submit_ignores_status_witness :
    tA1.tasks.find? (fun u => u.id == "t1") = some taskA1
    ∧ (taskA1.status = "finalized" ∨ taskA1.status = "failed")
    ∧ hasSubmission tA1.submissions "t1" "w9" = false
    ∧ ((submitResult tA1 "w9" "t1" "x" 1 9).2 = .ok false
      ∧ (submitResult tA1 "w9" "t1" "x" 1 9).1.submissions
          = tA1.submissions ++ [mkSub "t1" "w9" "x" 1 9]
      ∧ (submitResult tA1 "w9" "t1" "x" 1 9).1.tasks = tA1.tasks
      ∧ (submitResult tA1 "w9" "t1" "x" 1 9).1.scores = tA1.scores) :=
  ⟨by decide, Or.inl rfl, by decide,
    (C10_submit_ignores_status tA1 "w9" "t1" "x" 1 9 taskA1
      (by decide) (Or.inl rfl) (by decide)).1,
    (C10_submit_ignores_status tA1 "w9" "t1" "x" 1 9 taskA1
      (by decide) (Or.inl rfl) (by decide)).2.1,
    ((C10_submit_ignores_status tA1 "w9" "t1" "x" 1 9 taskA1
      (by decide) (Or.inl rfl) (by decide)).2.2 "a" rfl (by decide)).1,
    ((C10_submit_ignores_status tA1 "w9" "t1" "x" 1 9 taskA1
      (by decide) (Or.inl rfl) (by decide)).2.2 "a" rfl (by decide)).2⟩

/-- C10 counterexample: on a finalized task whose final_label is the empty
string, a Submit by a fresh worker DOES re-evaluate final_label, status and
WorkerScores — the finalization block re-runs and the scores change. -/
theorem C10_counterexample :
    tC1.tasks.map Task.status = ["finalized"]
    ∧ (submitResult tC1 "w2" "t1" "" 1 2).2 = .ok false
    ∧ tC1.scores = [{ workerId := "w1", points := 1 }]
    ∧ tC2.scores = [{ workerId := "w1", points := 2 }, { workerId := "w2", points := 1 }] := by
  decide

end DTCS
